import Mathlib

/-!
Shallow embedding of the 3ct LZSS codec (src/src/compress.cpp,
src/src/decompress.cpp, constants from the shared header).

Modelling conventions:
* The host is modelled as big-endian, so `byteswap_if_little_endian` is the
  identity; a `uint32_t` on the wire is the word value itself.
* `uint32_t` arithmetic is `Nat` with `% 2 ^ 32` exactly where the C code can
  wrap; `int32_t` quantities (`ch_LookAhead`, `ch_MatchLen`) are `Int`.
* The window (`unsigned char[WINDOW_SIZE]`) and the tree
  (`CompNode[WINDOW_SIZE + 1]`) are total functions from indices, updated
  pointwise in exactly the source's write order (so aliasing behaves as in C).
* `CreateCompressor` obtains its work buffer from `malloc`, which does not
  clear it, and the function never writes the window; the model therefore
  takes the window's initial contents as a parameter.
* Sink callbacks are modelled by accumulating the emitted words in an `out`
  list, in emission order.
* The unbounded loops of `AddString` (tree descent), `DeleteString`
  (rightmost-descendant walk), `FlushCompressor` and the decoder token loop
  are given explicit fuel.  On every tree that is free of parent/child cycles
  the descent fuel `WINDOW_SIZE + 2` is larger than any simple path, so the
  fuel never runs out where the C code terminates; where the C code would
  loop forever the model returns the state reached so far.
-/

namespace LZSS

/-! ## Constants (shared header) -/

def INDEX_BIT_COUNT : Nat := 12
def LENGTH_BIT_COUNT : Nat := 4
def WINDOW_SIZE : Nat := 1 <<< INDEX_BIT_COUNT
def BREAK_EVEN : Nat := 2
def END_OF_STREAM : Nat := 0
def LOOK_AHEAD_SIZE : Nat := (1 <<< LENGTH_BIT_COUNT) + BREAK_EVEN
def TREE_ROOT : Nat := WINDOW_SIZE
def UNUSED : Nat := 0

/-- `MOD_WINDOW(a) = a & (WINDOW_SIZE - 1)`; for a power of two this is
`a % WINDOW_SIZE`. -/
def MOD_WINDOW (a : Nat) : Nat := a % WINDOW_SIZE

/-! ## State representation -/

/-- One entry of the `tree[]` array (`struct CompNode`). -/
structure CompNode where
  parent : Nat
  leftChild : Nat
  rightChild : Nat
deriving DecidableEq, Repr

/-- `unsigned char ch_Window[WINDOW_SIZE]`, index already reduced mod window
where the source reduces it. -/
def Window : Type := Nat → Nat

/-- `CompNode ch_Tree[WINDOW_SIZE + 1]`. -/
def Tree : Type := Nat → CompNode

def Window.set (w : Window) (i v : Nat) : Window :=
  fun j => if j = i then v else w j

def Tree.set (t : Tree) (i : Nat) (n : CompNode) : Tree :=
  fun j => if j = i then n else t j

def Tree.setParent (t : Tree) (i v : Nat) : Tree :=
  t.set i { t i with parent := v }

def Tree.setLeft (t : Tree) (i v : Nat) : Tree :=
  t.set i { t i with leftChild := v }

def Tree.setRight (t : Tree) (i v : Nat) : Tree :=
  t.set i { t i with rightChild := v }

/-- The compressor instance (`struct Compressor` plus its
`CompressBitStream`); the sink is modelled by `out`. -/
structure Comp where
  window : Window
  tree : Tree
  lookAhead : Int
  matchLen : Int
  matchPos : Nat
  currentPos : Nat
  replaceCnt : Nat
  secondPass : Bool
  bitsLeft : Nat
  bitBuffer : Nat
  out : List Nat

/-! ## BitWriter (`WriteBits`, `CleanupBitStream`) -/

/-- `WriteBits`: one header bit then `numBits` bits of `code`, MSB first,
accumulated into a 32-bit buffer that is emitted when full.  `bs_BitsLeft`
is at least 1 whenever the C code calls this (fresh streams start at 32 and
every exit leaves at least 1), so the `uint32_t` decrement never wraps. -/
def WriteBits (c : Comp) (headBit code numBits : Nat) : Comp :=
  let bl := c.bitsLeft - 1
  let bb := c.bitBuffer ||| ((headBit <<< bl) % 2 ^ 32)
  if numBits ≥ bl then
    let nb := numBits - bl
    let c := { c with out := c.out ++ [(code >>> nb) ||| bb] }
    if nb = 0 then
      { c with bitsLeft := 32 - nb, bitBuffer := 0 }
    else
      { c with bitsLeft := 32 - nb, bitBuffer := (code <<< (32 - nb)) % 2 ^ 32 }
  else
    { c with bitsLeft := bl - numBits,
             bitBuffer := bb ||| ((code <<< (bl - numBits)) % 2 ^ 32) }

/-- `CleanupBitStream`: flush a partial final word. -/
def CleanupBitStream (c : Comp) : Comp :=
  if c.bitsLeft ≠ 32 then { c with out := c.out ++ [c.bitBuffer] } else c

/-! ## MatchTree -/

/-- The byte-compare loop at the top of `AddString`'s descent, counting the
remaining offsets down in `k` (the current offset is `i`, with
`k + i = LOOK_AHEAD_SIZE` at every call): return the first differing byte's
signed delta together with the offset where the loop stopped. -/
def phraseCmpAux (w : Window) (a b : Nat) : Nat → Nat → Int × Nat
  | 0, i => (0, i)
  | k + 1, i =>
    let d : Int := (w (MOD_WINDOW (a + i)) : Int) - (w (MOD_WINDOW (b + i)) : Int)
    if d ≠ 0 then (d, i) else phraseCmpAux w a b k (i + 1)

/-- The full phrase compare `for (i = 0; i < LOOK_AHEAD_SIZE; i++)`; the
result is `(0, LOOK_AHEAD_SIZE)` when the two 18-byte phrases agree,
matching the C loop where `delta` is 0 when no break occurred. -/
def phraseCmp (w : Window) (a b : Nat) : Int × Nat :=
  phraseCmpAux w a b LOOK_AHEAD_SIZE 0

/-- The duplicate-eviction surgery of `AddString` (the `matchLen >=
LOOK_AHEAD_SIZE` branch): re-link `test`'s parent to `newNode`, copy `test`'s
links into `newNode`, repoint both children's parents, detach `test`.
Writes are performed in the source's order, re-reading the tree after each
write exactly as the C pointer accesses do. -/
def replaceNode (tree : Tree) (testNode newNode : Nat) : Tree :=
  let parentNode := (tree testNode).parent
  let tree :=
    if (tree parentNode).leftChild = testNode then
      tree.setLeft parentNode newNode
    else
      tree.setRight parentNode newNode
  let tree := tree.set newNode (tree testNode)
  let tree := tree.setParent (tree newNode).leftChild newNode
  let tree := tree.setParent (tree newNode).rightChild newNode
  tree.setParent testNode UNUSED

/-- Attach `newNode` as the right child of `testNode` with both of its own
children `UNUSED`. -/
def attachRight (tree : Tree) (testNode newNode : Nat) : Tree :=
  let tree := tree.setRight testNode newNode
  tree.set newNode ⟨testNode, UNUSED, UNUSED⟩

/-- Attach `newNode` as the left child of `testNode`. -/
def attachLeft (tree : Tree) (testNode newNode : Nat) : Tree :=
  let tree := tree.setLeft testNode newNode
  tree.set newNode ⟨testNode, UNUSED, UNUSED⟩

/-- Result of `AddString`: the returned match length, the out-parameter
`*matchPos`, and the updated tree. -/
structure AddResult where
  matchLen : Nat
  matchPos : Nat
  tree : Tree

/-- The main descent loop of `AddString`.  `fuel` bounds the descent depth;
`none` can only occur on a tree whose child links form a cycle, where the C
code would not terminate. -/
def addStringLoop (w : Window) (newNode : Nat) :
    Nat → Tree → Nat → Nat → Nat → Option AddResult
  | 0, _, _, _, _ => none
  | fuel + 1, tree, testNode, matchLen, matchPos =>
    let dc := phraseCmp w newNode testNode
    let delta := dc.1
    let i := dc.2
    if i ≥ matchLen then
      if i ≥ LOOK_AHEAD_SIZE then
        some ⟨i, testNode, replaceNode tree testNode newNode⟩
      else if delta ≥ 0 then
        if (tree testNode).rightChild = UNUSED then
          some ⟨i, testNode, attachRight tree testNode newNode⟩
        else
          addStringLoop w newNode fuel tree (tree testNode).rightChild i testNode
      else
        if (tree testNode).leftChild = UNUSED then
          some ⟨i, testNode, attachLeft tree testNode newNode⟩
        else
          addStringLoop w newNode fuel tree (tree testNode).leftChild i testNode
    else
      if delta ≥ 0 then
        if (tree testNode).rightChild = UNUSED then
          some ⟨matchLen, matchPos, attachRight tree testNode newNode⟩
        else
          addStringLoop w newNode fuel tree (tree testNode).rightChild matchLen matchPos
      else
        if (tree testNode).leftChild = UNUSED then
          some ⟨matchLen, matchPos, attachLeft tree testNode newNode⟩
        else
          addStringLoop w newNode fuel tree (tree testNode).leftChild matchLen matchPos

/-- Descent fuel: strictly more than the number of tree nodes, hence larger
than any simple path in the tree. -/
def DESCENT_FUEL : Nat := WINDOW_SIZE + 2

/-- `AddString` as used by the encoder: assigns `ch_MatchLen`, `ch_MatchPos`
and the tree into the state.  `newNode == END_OF_STREAM` returns 0 leaving
`*matchPos` untouched.  The `none` case of the descent (a cyclic tree, on
which the C code would never return) is mapped to a zero-length match with
the state otherwise unchanged; no claim depends on this choice. -/
def addStringFeed (s : Comp) (newNode : Nat) : Comp :=
  if newNode = END_OF_STREAM then
    { s with matchLen := 0 }
  else
    match addStringLoop s.window newNode DESCENT_FUEL s.tree
        ((s.tree TREE_ROOT).rightChild) 0 s.matchPos with
    | some r => { s with matchLen := (r.matchLen : Int), matchPos := r.matchPos, tree := r.tree }
    | none => { s with matchLen := 0 }

/-- The rightmost node of the right spine starting at `n` (the do/while walk
inside `DeleteString`). -/
def rightmostFrom (tree : Tree) : Nat → Nat → Nat
  | 0, n => n
  | fuel + 1, n =>
    if (tree n).rightChild = UNUSED then n
    else rightmostFrom tree fuel (tree n).rightChild

/-- The common tail of `DeleteString`: redirect the parent's child link from
`node` to `newNode`, then mark `node` detached. -/
def deleteFinish (tree : Tree) (node parent newNode : Nat) : Tree :=
  let tree :=
    if (tree parent).leftChild = node then tree.setLeft parent newNode
    else tree.setRight parent newNode
  tree.setParent node UNUSED

/-- `DeleteString`: classic BST deletion as written in the source, including
the two-children case where the in-order predecessor is relocated.  Note the
source clears the predecessor's old parent's right-child link instead of
splicing the predecessor's left subtree up. -/
def DeleteString (tree : Tree) (node : Nat) : Tree :=
  let parent := (tree node).parent
  if parent = UNUSED then tree
  else if (tree node).leftChild = UNUSED then
    let newNode := (tree node).rightChild
    let tree := tree.setParent newNode parent
    deleteFinish tree node parent newNode
  else if (tree node).rightChild = UNUSED then
    let newNode := (tree node).leftChild
    let tree := tree.setParent newNode parent
    deleteFinish tree node parent newNode
  else
    let firstNew := (tree node).leftChild
    let next := (tree firstNew).rightChild
    if next ≠ UNUSED then
      let newNode := rightmostFrom tree DESCENT_FUEL next
      let tree := tree.setRight ((tree newNode).parent) UNUSED
      let tree := tree.setParent newNode ((tree node).parent)
      let tree := tree.setLeft newNode ((tree node).leftChild)
      let tree := tree.setRight newNode ((tree node).rightChild)
      let tree := tree.setParent ((tree newNode).leftChild) newNode
      let tree := tree.setParent ((tree newNode).rightChild) newNode
      deleteFinish tree node parent newNode
    else
      let newNode := firstNew
      let tree := tree.setParent newNode parent
      let tree := tree.setRight newNode ((tree node).rightChild)
      let tree := tree.setParent ((tree newNode).rightChild) newNode
      deleteFinish tree node parent newNode

/-! ## Encoder lifecycle -/

/-- `CreateCompressor`: `memset` clears the tree, position 1 becomes the
initial root; `ch_LookAhead = ch_CurrentPos = 1`.  The window is *not*
written (the `malloc`/caller buffer keeps its previous contents `w0`). -/
def CreateCompressor (w0 : Window) : Comp where
  window := w0
  tree :=
    let t : Tree := fun _ => ⟨UNUSED, UNUSED, UNUSED⟩
    let t := t.setRight TREE_ROOT 1
    t.setParent 1 TREE_ROOT
  lookAhead := 1
  matchLen := 0
  matchPos := 0
  currentPos := 1
  replaceCnt := 0
  secondPass := false
  bitsLeft := 32
  bitBuffer := 0
  out := []

/-- The token-emission step at the top of the encoder's `while(true)` loop:
clamp `matchLen` to `lookAhead`, emit a literal or an index/length pair, and
set `replaceCnt`. -/
def emitToken (s : Comp) : Comp :=
  let ml := if s.matchLen > s.lookAhead then s.lookAhead else s.matchLen
  let s := { s with matchLen := ml }
  if ml ≤ (BREAK_EVEN : Int) then
    let s := WriteBits s 1 (s.window s.currentPos) 8
    { s with replaceCnt := 1 }
  else
    let temp := (s.matchPos <<< LENGTH_BIT_COUNT) ||| (ml - (BREAK_EVEN + 1)).toNat
    let s := WriteBits s 0 temp (INDEX_BIT_COUNT + LENGTH_BIT_COUNT)
    { s with replaceCnt := ml.toNat }

/-- One input byte consumed at the `newData` label of `FeedCompressor`,
followed by the actions up to the next byte demand: store the byte ahead of
the look-ahead, advance `currentPos`, insert the new phrase, then either
continue the current token's replacement loop or emit the next token; in
both cases `DeleteString` runs before the next byte is required. -/
def encConsume (s : Comp) (b : Nat) : Comp :=
  let s :=
    { s with window := s.window.set (MOD_WINDOW (s.currentPos + LOOK_AHEAD_SIZE)) (b % 256) }
  let s := { s with currentPos := MOD_WINDOW (s.currentPos + 1) }
  let s := if s.lookAhead ≠ 0 then addStringFeed s s.currentPos else s
  if s.replaceCnt ≠ 0 then
    let s := { s with replaceCnt := s.replaceCnt - 1 }
    { s with tree := DeleteString s.tree (MOD_WINDOW (s.currentPos + LOOK_AHEAD_SIZE)) }
  else
    let s := emitToken s
    let s := { s with replaceCnt := s.replaceCnt - 1 }
    { s with tree := DeleteString s.tree (MOD_WINDOW (s.currentPos + LOOK_AHEAD_SIZE)) }

/-- The encoder parked at the byte-demand point inside the replacement loop:
with no data it saves state and sets `ch_SecondPass`; otherwise it consumes
bytes one at a time. -/
def encDemand : Comp → List Nat → Comp
  | s, [] => { s with secondPass := true }
  | s, b :: rest => encDemand (encConsume s b) rest

/-- Falling out of the fill phase into the encode phase: emit the first
token, run the first `replaceCnt--` iteration's `DeleteString`, and park at
the byte-demand point. -/
def encodeEntry (s : Comp) (bytes : List Nat) : Comp :=
  let s := emitToken s
  let s := { s with replaceCnt := s.replaceCnt - 1 }
  let s := { s with tree := DeleteString s.tree (MOD_WINDOW (s.currentPos + LOOK_AHEAD_SIZE)) }
  encDemand s bytes

/-- The fill phase of `FeedCompressor`: `while (lookAhead <= LOOK_AHEAD_SIZE)`
read one byte into `window[lookAhead++]`; when the loop exits,
`lookAhead--` and enter the encode phase. -/
def fillLoop : Comp → List Nat → Comp
  | s, [] =>
    if s.lookAhead ≤ (LOOK_AHEAD_SIZE : Int) then s
    else encodeEntry { s with lookAhead := s.lookAhead - 1 } []
  | s, b :: rest =>
    if s.lookAhead ≤ (LOOK_AHEAD_SIZE : Int) then
      fillLoop { s with window := s.window.set s.lookAhead.toNat (b % 256),
                        lookAhead := s.lookAhead + 1 } rest
    else
      encodeEntry { s with lookAhead := s.lookAhead - 1 } (b :: rest)

/-- `FeedCompressor` on a chunk of input bytes (`numDataWords * 4` bytes in
the source; the word payload is treated as a raw byte sequence).  An empty
chunk returns immediately; a resumed call (`ch_SecondPass`) re-enters the
replacement loop at `newData`. -/
def FeedCompressor (s : Comp) (bytes : List Nat) : Comp :=
  if bytes = [] then s
  else if s.secondPass then encDemand s bytes
  else fillLoop s bytes

/-- `currentPos`-advance plus conditional `AddString` at `newData` inside
`FlushCompressor` (no byte is taken during flush). -/
def flushNewData (s : Comp) : Comp :=
  let s := { s with currentPos := MOD_WINDOW (s.currentPos + 1) }
  if s.lookAhead ≠ 0 then addStringFeed s s.currentPos else s

/-- The two nested loops of `FlushCompressor`; the `Bool` is `true` at the
inner `while (replaceCnt--)` test and `false` at the outer
`while (lookAhead >= 0)` test. -/
def flushLoop : Nat → Comp → Bool → Comp
  | 0, s, _ => s
  | fuel + 1, s, true =>
    if s.replaceCnt ≠ 0 then
      let s := { s with replaceCnt := s.replaceCnt - 1 }
      let s := { s with tree := DeleteString s.tree (MOD_WINDOW (s.currentPos + LOOK_AHEAD_SIZE)) }
      let s := { s with lookAhead := s.lookAhead - 1 }
      flushLoop fuel (flushNewData s) true
    else
      flushLoop fuel s false
  | fuel + 1, s, false =>
    if s.lookAhead ≥ 0 then flushLoop fuel (emitToken s) true
    else s

/-- Fuel for `FlushCompressor`: the look-ahead is at most 19, each inner
iteration decreases it and the loop stops once it is negative, so 256 steps
are ample. -/
def FLUSH_FUEL : Nat := 256

/-- `FlushCompressor`: drain the look-ahead with no further input; on
`ch_SecondPass` re-enter at `newData` (skipping that iteration's delete and
`lookAhead--`). -/
def FlushCompressor (s : Comp) : Comp :=
  if s.secondPass then flushLoop FLUSH_FUEL (flushNewData s) true
  else flushLoop FLUSH_FUEL s false

/-- `DeleteCompressor` (the codec part): flush, write the END_OF_STREAM
token over `INDEX_BIT_COUNT` bits, flush the partial output word. -/
def DeleteCompressor (s : Comp) : Comp :=
  CleanupBitStream (WriteBits (FlushCompressor s) 0 END_OF_STREAM INDEX_BIT_COUNT)

/-- A 32-bit word as the four bytes the encoder reads from memory (the model
host is big-endian). -/
def wordBytes (w : Nat) : List Nat :=
  [(w >>> 24) % 256, (w >>> 16) % 256, (w >>> 8) % 256, w % 256]

/-- A word sequence as the raw byte stream `FeedCompressor` consumes. -/
def wordsBytes (ws : List Nat) : List Nat :=
  (ws.map wordBytes).flatten

/-- Feed one chunk of words. -/
def feedWords (s : Comp) (ws : List Nat) : Comp :=
  FeedCompressor s (wordsBytes ws)

/-- The whole pipeline on a zero-initialized work buffer: create, feed the
words as one chunk, close; the result is the emitted word sequence. -/
def compressWords (ws : List Nat) : List Nat :=
  (DeleteCompressor (feedWords (CreateCompressor fun _ => 0) ws)).out

/-! ## Decoder (`decompress.cpp`) -/

/-- `DecompressBitStream`: `data` holds the words not yet loaded into the
bit buffer (`bs_Data` / `bs_NumDataWords`). -/
structure DecBS where
  data : List Nat
  bitsLeft : Nat
  bitBuffer : Nat
  error : Bool

/-- `ReadBits`: take `numBits` MSB-first; when the buffer holds fewer bits,
drain it, load (and byte-swap) the next word, and continue from there; on an
empty word list set the sticky `bs_Error` and return 0 (leaving `bitsLeft`
and the buffer untouched, as the early `return` in the source does). -/
def ReadBits (bs : DecBS) (numBits : Nat) : Nat × DecBS :=
  if numBits > bs.bitsLeft then
    let result :=
      if bs.bitsLeft ≠ 0 then
        (bs.bitBuffer <<< (numBits - bs.bitsLeft)) &&& ((1 <<< numBits) - 1)
      else 0
    let nb := if bs.bitsLeft ≠ 0 then numBits - bs.bitsLeft else numBits
    match bs.data with
    | [] => (0, { bs with error := true })
    | word :: rest =>
      let buf := word % 2 ^ 32
      let bl := 32 - nb
      (result ||| ((buf >>> bl) &&& ((1 <<< nb) - 1)),
       { bs with data := rest, bitBuffer := buf, bitsLeft := bl })
  else
    let bl := bs.bitsLeft - numBits
    ((bs.bitBuffer >>> bl) &&& ((1 <<< numBits) - 1), { bs with bitsLeft := bl })

/-- `struct Decompressor`; decoded output words accumulate in `out`. -/
structure Dec where
  wordBuffer : Nat
  bytesLeft : Nat
  pos : Nat
  window : Window
  bs : DecBS
  out : List Nat

/-- `CreateDecompressor` with a self-allocated (`calloc`, hence zeroed)
work buffer: `dh_BytesLeft = 4`, `dh_Pos = 1`, fresh bit stream. -/
def CreateDecompressor : Dec where
  wordBuffer := 0
  bytesLeft := 4
  pos := 1
  window := fun _ => 0
  bs := { data := [], bitsLeft := 0, bitBuffer := 0, error := false }
  out := []

/-- One decoded byte `c`: push it into the 4-byte output assembly (flushing
the previous word when the assembly was full) and write it into the window
at `pos`. -/
def emitByte (d : Dec) (c : Nat) : Dec :=
  let d :=
    if d.bytesLeft = 0 then
      { d with out := d.out ++ [d.wordBuffer], wordBuffer := c, bytesLeft := 3 }
    else
      { d with wordBuffer := ((d.wordBuffer <<< 8) ||| c) % 2 ^ 32,
               bytesLeft := d.bytesLeft - 1 }
  { d with window := d.window.set d.pos (c % 256), pos := MOD_WINDOW (d.pos + 1) }

/-- The back-reference copy `for (i = matchPos; i <= matchLen + matchPos;
i++)`, reading the window as it is being written (`cnt` iterations remain,
`i` is the current source index). -/
def copyBytes (d : Dec) : Nat → Nat → Dec
  | _, 0 => d
  | i, cnt + 1 => copyBytes (emitByte d (d.window (MOD_WINDOW i))) (i + 1) cnt

/-- The token loop of `internalFeedDecompressor`: while unread words remain,
read a tag bit and then a literal or a back-reference; a zero offset
(END_OF_STREAM) breaks out of the loop.  Each iteration consumes at least
one bit, so `32 * |words| + 33` fuel is never exhausted. -/
def decLoop : Nat → Dec → Dec
  | 0, d => d
  | fuel + 1, d =>
    if d.bs.data.length ≠ 0 then
      let tagBs := ReadBits d.bs 1
      let d := { d with bs := tagBs.2 }
      if tagBs.1 ≠ 0 then
        let cBs := ReadBits d.bs 8
        decLoop fuel (emitByte { d with bs := cBs.2 } cBs.1)
      else
        let mpBs := ReadBits d.bs INDEX_BIT_COUNT
        let d := { d with bs := mpBs.2 }
        if mpBs.1 = END_OF_STREAM then d
        else
          let mlBs := ReadBits d.bs LENGTH_BIT_COUNT
          let matchLen := mlBs.1 + BREAK_EVEN
          decLoop fuel (copyBytes { d with bs := mlBs.2 } mpBs.1 (matchLen + 1))
    else d

/-- `FeedDecompressor` / `internalFeedDecompressor`: point the bit stream at
the new chunk (the buffered bits and all other state persist) and run the
token loop. -/
def FeedDecompressor (d : Dec) (ws : List Nat) : Dec :=
  let d := { d with bs := { d.bs with data := ws } }
  decLoop (32 * ws.length + 33) d

/-- Result codes of `DeleteDecompressor`.

Modelled from the spec: `errors.hpp` is not under `src/`; the spec's §7
lists the decoder-relevant error kinds DataRemains ("decoder finished on
END_OF_STREAM but the caller supplied more words") and DataMissing
("decoder ran out of input before END_OF_STREAM"), surfaced as result codes
at operation boundaries, with 0/`ok` for success. -/
inductive DecResult where
  | ok
  | dataRemains
  | dataMissing
deriving DecidableEq, Repr

/-- `DeleteDecompressor` (the codec part): flush the last assembled word if
it is complete, then report `dataRemains` if unread words remain and
`dataMissing` (taking precedence, as the later `if` in the source) if the
bit stream underflowed.  Returns the result code and the full output. -/
def DeleteDecompressor (d : Dec) : DecResult × List Nat :=
  let d :=
    if d.bytesLeft = 0 then { d with out := d.out ++ [d.wordBuffer] } else d
  let r :=
    if d.bs.error then DecResult.dataMissing
    else if d.bs.data.length ≠ 0 then DecResult.dataRemains
    else DecResult.ok
  (r, d.out)

/-- The whole decoding pipeline: create, feed one chunk of words, close. -/
def decompressWords (ws : List Nat) : DecResult × List Nat :=
  DeleteDecompressor (FeedDecompressor CreateDecompressor ws)

/-! ## Observations on the tree: in-order walk, reachability, phrase order -/

/-- In-order walk of the subtree rooted at `n`, cut off at depth `fuel`. -/
def inorder (t : Tree) : Nat → Nat → List Nat
  | 0, _ => []
  | fuel + 1, n =>
    if n = UNUSED then []
    else inorder t fuel (t n).leftChild ++ n :: inorder t fuel (t n).rightChild

/-- The nodes reachable from the dummy root, in in-order. -/
def reachList (t : Tree) (fuel : Nat) : List Nat :=
  inorder t fuel ((t TREE_ROOT).rightChild)

/-- The 18-byte phrase starting at window position `p` (the MatchTree sort
key). -/
def phrase (w : Window) (p : Nat) : List Nat :=
  (List.range LOOK_AHEAD_SIZE).map fun i => w (MOD_WINDOW (p + i))

/-- Byte-wise (unsigned) lexicographic comparison of phrases. -/
def phraseLeB : List Nat → List Nat → Bool
  | [], _ => true
  | _ :: _, [] => false
  | a :: as, b :: bs => if a < b then true else if b < a then false else phraseLeB as bs

/-- The positions of `l` carry phrases in ascending lexicographic order. -/
def sortedByPhrase (w : Window) : List Nat → Bool
  | [] => true
  | [_] => true
  | p :: q :: rest =>
    phraseLeB (phrase w p) (phrase w q) && sortedByPhrase w (q :: rest)

/-! ## Concrete test data -/

/-- Window for the `DeleteString` scenario: single distinguishing bytes at
the five node positions, so the phrases order as
`30 < 45 < 60 < 100 < 200`. -/
def c4window : Window := fun j =>
  if j = 30 then 3 else if j = 45 then 4 else if j = 60 then 5
  else if j = 100 then 8 else if j = 200 then 9 else 0

/-- A BST in lexicographic order: root 100 with children 30 and 200; 30 has
right child 60; 60 has left child 45.  The in-order predecessor of 100 is
60, and 60 has a left child (45). -/
def c4tree : Tree :=
  let t : Tree := fun _ => ⟨UNUSED, UNUSED, UNUSED⟩
  let t := t.setRight TREE_ROOT 100
  let t := t.set 100 ⟨TREE_ROOT, 30, 200⟩
  let t := t.set 30 ⟨100, UNUSED, 60⟩
  let t := t.set 200 ⟨100, UNUSED, UNUSED⟩
  let t := t.set 60 ⟨30, 45, UNUSED⟩
  t.set 45 ⟨60, UNUSED, UNUSED⟩

/-- Window for the tie-break scenario: positions 30, 60 and 100 share a
5-byte prefix `9,9,9,9,9` and then differ (byte 1, 2 and 3 respectively),
so both tree nodes match the new phrase at 100 with length exactly 5, and
both comparisons descend right. -/
def c5window : Window := fun j =>
  if (30 ≤ j ∧ j < 35) ∨ (60 ≤ j ∧ j < 65) ∨ (100 ≤ j ∧ j < 105) then 9
  else if j = 35 then 1 else if j = 65 then 2 else if j = 105 then 3 else 0

/-- Tree for the tie-break scenario: root 30 whose right child is 60. -/
def c5tree : Tree :=
  let t : Tree := fun _ => ⟨UNUSED, UNUSED, UNUSED⟩
  let t := t.setRight TREE_ROOT 30
  let t := t.set 30 ⟨TREE_ROOT, UNUSED, 60⟩
  t.set 60 ⟨30, UNUSED, UNUSED⟩

/-- Window for the duplicate-eviction scenario: positions 40 and 300 carry
the same 18-byte phrase `10..27`; position 20 sorts below it and position
600 above it. -/
def c6window : Window := fun j =>
  if 40 ≤ j ∧ j < 58 then j - 40 + 10
  else if 300 ≤ j ∧ j < 318 then j - 300 + 10
  else if j = 20 then 1 else if j = 600 then 200 else 0

/-- Tree for the duplicate-eviction scenario: root 40 with children 20 and
600. -/
def c6tree : Tree :=
  let t : Tree := fun _ => ⟨UNUSED, UNUSED, UNUSED⟩
  let t := t.setRight TREE_ROOT 40
  let t := t.set 40 ⟨TREE_ROOT, 20, 600⟩
  let t := t.set 20 ⟨40, UNUSED, UNUSED⟩
  t.set 600 ⟨40, UNUSED, UNUSED⟩

/-- The result of inserting position 300 into `c6tree`. -/
def c6res : AddResult :=
  (addStringLoop c6window 300 DESCENT_FUEL c6tree 40 0 0).getD ⟨0, 0, c6tree⟩

/-- A compressed stream whose END_OF_STREAM token ends exactly at a word
boundary: 18 literals `0x41..0x52`, one back-reference `(offset 1, 3
bytes)`, then the terminator — 192 bits, 6 words. -/
def alignedStream : List Nat :=
  [0xa0d0a874, 0x4a2d1a8f, 0x48a4d2a9, 0x74ca6d3a, 0x9f50a8d4, 0x80020000]

/-- Three words holding eight literal tokens `0x61..0x68` followed by zero
padding (no terminator). -/
def ws2lit : List Nat := [0xb0d8ac76, 0x4b2d9acf, 0x68000000]

/-- Mark a compressor state suspended (`ch_SecondPass := true`), as the
save point inside the replacement loop of `FeedCompressor` does. -/
def setSP (s : Comp) : Comp := { s with secondPass := true }

set_option maxRecDepth 1000000

/-! ## Theorems -/

/-- C3 counterexample: closing a fresh encoder that was fed nothing emits
exactly one word, but that word is `0x80400000` — two one-byte literal
tokens (value 0) followed by the 13-bit terminator — not `0x00000000` as
the claim states. -/
theorem empty_input_word_not_zero :
    compressWords [] = [0x80400000] ∧ ([0x80400000] : List Nat) ≠ [0x00000000] := by
  decide

/-- C3 amended: with a zero-initialized work buffer, creating the encoder,
feeding zero words and closing emits exactly the single word `0x80400000`
(the flush drains the initial look-ahead of 1 through two zero-literal
tokens before the terminator), and decoding that word yields zero output
words with a clean close. -/
theorem empty_input_roundtrip :
    compressWords [] = [0x80400000] ∧
    decompressWords [0x80400000] = (DecResult.ok, []) := by
  decide

/-- C2: a valid 5-word compressed stream (of the 3-word input
`ABCD EFGH IJKL`) with its last word dropped decodes without any error —
`DeleteDecompressor` returns ok, not DataMissing — while the bytes produced
are a strict prefix of the original: the token loop stops as soon as all
words have been loaded into the bit buffer, so the underflow flag that
would produce DataMissing can never be set. -/
theorem truncated_stream_close_is_ok :
    compressWords [0x41424344, 0x45464748, 0x494a4b4c] =
      [0xa0d0a874, 0x4a2d1a8f, 0x48a4d2a9, 0x74c80400, 0x00000000] ∧
    decompressWords [0xa0d0a874, 0x4a2d1a8f, 0x48a4d2a9, 0x74c80400] =
      (DecResult.ok, [0x41424344, 0x45464748]) ∧
    DecResult.ok ≠ DecResult.dataMissing ∧
    [0x41424344, 0x45464748] = [0x41424344, 0x45464748, 0x494a4b4c].take 2 := by
  decide

/-- C4: on a lexicographically ordered BST where the deleted node 100 is
attached and has two children, and where the in-order predecessor 60 has a
left child 45, `DeleteString` loses node 45: the source clears the
predecessor's old parent's right-child link outright instead of splicing
the predecessor's left subtree up, so 45 — reachable before — is
unreachable afterwards (only the deleted node should have dropped out). -/
theorem deleteString_orphans_predecessor_left_child :
    sortedByPhrase c4window (reachList c4tree 8) = true ∧
    (c4tree 100).parent ≠ UNUSED ∧
    (c4tree 100).leftChild ≠ UNUSED ∧ (c4tree 100).rightChild ≠ UNUSED ∧
    reachList c4tree 8 = [30, 45, 60, 100, 200] ∧
    reachList (DeleteString c4tree 100) 8 = [30, 60, 200] ∧
    (DeleteString c4tree 100 100).parent = UNUSED ∧
    (DeleteString c4tree 100 45).parent = 60 ∧
    (45 ∈ reachList c4tree 8 ∧ 45 ∉ reachList (DeleteString c4tree 100) 8) := by
  decide

/-- C9 counterexample: after an unsatisfiable read (5 bits wanted, 3
buffered, no words left) returns 0 and sets the sticky error flag, a
subsequent 1-bit read still returns a buffered bit — here 1, not 0 — because
the failing read left `bs_BitsLeft` and the buffer untouched. -/
theorem readBits_error_not_all_zero :
    (ReadBits ⟨[], 3, 0xFFFFFFFF, false⟩ 5).1 = 0 ∧
    (ReadBits ⟨[], 3, 0xFFFFFFFF, false⟩ 5).2.error = true ∧
    (ReadBits (ReadBits ⟨[], 3, 0xFFFFFFFF, false⟩ 5).2 1).1 = 1 ∧ (1 : Nat) ≠ 0 := by
  decide

/-- C9 amended: on an exhausted word sequence, a read of more bits than the
buffer holds returns 0, sets the sticky error flag and leaves the rest of
the state unchanged; every subsequent read of more bits than the buffer
holds likewise returns 0 (reads that fit in the buffered bits still return
those bits, as the counterexample shows). -/
theorem readBits_exhausted_underflow (bs : DecBS) (n : Nat)
    (hd : bs.data = []) (hn : bs.bitsLeft < n) :
    ReadBits bs n = (0, { bs with error := true }) ∧
    ∀ m, bs.bitsLeft < m →
      ReadBits { bs with error := true } m = (0, { bs with error := true }) := by
  obtain ⟨data, bitsLeft, bitBuffer, error⟩ := bs
  subst hd
  constructor
  · simp only [ReadBits]
    rw [if_pos hn]
  · intro m hm
    simp only [ReadBits]
    rw [if_pos hm]

/-- Witness for `readBits_exhausted_underflow` at the concrete state with 3
buffered bits and no words, reading 5 bits. -/
theorem readBits_exhausted_underflow_witness :
    ((⟨[], 3, 0xFFFFFFFF, false⟩ : DecBS).data = [] ∧
      (⟨[], 3, 0xFFFFFFFF, false⟩ : DecBS).bitsLeft < 5) ∧
    (ReadBits ⟨[], 3, 0xFFFFFFFF, false⟩ 5 =
        (0, { (⟨[], 3, 0xFFFFFFFF, false⟩ : DecBS) with error := true }) ∧
      ∀ m, (⟨[], 3, 0xFFFFFFFF, false⟩ : DecBS).bitsLeft < m →
        ReadBits { (⟨[], 3, 0xFFFFFFFF, false⟩ : DecBS) with error := true } m =
          (0, { (⟨[], 3, 0xFFFFFFFF, false⟩ : DecBS) with error := true })) :=
  ⟨⟨rfl, by decide⟩,
    readBits_exhausted_underflow ⟨[], 3, 0xFFFFFFFF, false⟩ 5 rfl (by decide)⟩

/-- C10 counterexample: feed a terminator word followed by one extra word —
the loop halts with 1 word unread — then feed three words of well-formed
literal tokens: the decoder re-enters the token loop but resumes from the
stale bit buffer (still holding zero bits of the terminator word), reads
another END_OF_STREAM from it at once, and leaves all three new words
unread with no output, although the same three words decode to two output
words on a fresh decoder. -/
theorem feed_after_eos_stale_buffer :
    (FeedDecompressor CreateDecompressor [0, 0xDEADBEEF]).out = [] ∧
    (FeedDecompressor CreateDecompressor [0, 0xDEADBEEF]).bs.data = [0xDEADBEEF] ∧
    (FeedDecompressor CreateDecompressor [0, 0xDEADBEEF]).bs.error = false ∧
    (FeedDecompressor (FeedDecompressor CreateDecompressor [0, 0xDEADBEEF]) ws2lit).out = [] ∧
    (FeedDecompressor (FeedDecompressor CreateDecompressor [0, 0xDEADBEEF]) ws2lit).bs.data
      = ws2lit ∧
    (DeleteDecompressor (FeedDecompressor CreateDecompressor ws2lit)).2 =
      [0x61626364, 0x65666768] := by
  decide

/-- C10 amended: the decoder keeps no terminated flag, so a later feed does
re-enter the token loop, resuming from the leftover bit buffer.  When the
END_OF_STREAM token ended exactly at a word boundary (`alignedStream`), a
later feed decodes the new words as ordinary tokens and emits output, and
DataRemains at close reflects only the most recent feed call's unread
words: closing right after the feed that saw the terminator (1 word
unread) reports DataRemains, while closing after the later fully-consumed
feed reports ok. -/
theorem feed_after_aligned_eos_decodes_new_words :
    (FeedDecompressor CreateDecompressor (alignedStream ++ [0xDEADBEEF])).out.length = 5 ∧
    (FeedDecompressor CreateDecompressor (alignedStream ++ [0xDEADBEEF])).bs.data
      = [0xDEADBEEF] ∧
    (DeleteDecompressor
        (FeedDecompressor CreateDecompressor (alignedStream ++ [0xDEADBEEF]))).1
      = DecResult.dataRemains ∧
    (FeedDecompressor
        (FeedDecompressor CreateDecompressor (alignedStream ++ [0xDEADBEEF])) ws2lit).out
      = (FeedDecompressor CreateDecompressor (alignedStream ++ [0xDEADBEEF])).out
          ++ [0x43616263, 0x64656667] ∧
    (DeleteDecompressor (FeedDecompressor
        (FeedDecompressor CreateDecompressor (alignedStream ++ [0xDEADBEEF])) ws2lit)).1
      = DecResult.ok := by
  decide

/-- The compare loop never reports an offset beyond `i + k`. -/
theorem phraseCmpAux_snd_le (w : Window) (a b : Nat) :
    ∀ k i, (phraseCmpAux w a b k i).2 ≤ i + k := by
  intro k
  induction k with
  | zero => intro i; simp [phraseCmpAux]
  | succ k ih =>
    intro i
    simp only [phraseCmpAux]
    split
    · simp
    · calc (phraseCmpAux w a b k (i + 1)).2 ≤ i + 1 + k := ih (i + 1)
        _ = i + (k + 1) := by omega

/-- A full phrase compare stops at an offset of at most `LOOK_AHEAD_SIZE`. -/
theorem phraseCmp_snd_le (w : Window) (a b : Nat) :
    (phraseCmp w a b).2 ≤ LOOK_AHEAD_SIZE := by
  simpa using phraseCmpAux_snd_le w a b LOOK_AHEAD_SIZE 0

/-- After the duplicate-eviction surgery the evicted node is detached. -/
theorem replaceNode_detached (t : Tree) (a b : Nat) :
    (replaceNode t a b a).parent = UNUSED := by
  simp [replaceNode, Tree.setParent, Tree.set]

/-- C6: whenever the `AddString` descent returns a full (18-byte) match —
starting, as every caller does, from a best-so-far below 18 — the returned
`matchPos` is the matched node, the match length is exactly
`LOOK_AHEAD_SIZE`, the phrases at `newNode` and `matchPos` agree over all
18 bytes, and the resulting tree is the original tree with exactly the
replacement surgery applied at `matchPos` (parent re-linked to `newNode`,
`test`'s links copied into `newNode`, both children's parent pointers
repointed, `test` detached); in particular the matched node ends up
detached.  Conjoined: on the concrete duplicate-phrase example the
reachable node set swaps 40 for 300 and its size is unchanged. -/
theorem addString_full_match_replaces :
    (∀ (w : Window) (tree : Tree) (newNode fuel testNode ml0 mp0 : Nat) (r : AddResult),
      addStringLoop w newNode fuel tree testNode ml0 mp0 = some r →
      ml0 < LOOK_AHEAD_SIZE → LOOK_AHEAD_SIZE ≤ r.matchLen →
      r.matchLen = LOOK_AHEAD_SIZE ∧
      (phraseCmp w newNode r.matchPos).2 = LOOK_AHEAD_SIZE ∧
      r.tree = replaceNode tree r.matchPos newNode ∧
      (r.tree r.matchPos).parent = UNUSED) ∧
    (reachList c6tree 6 = [20, 40, 600] ∧
     reachList c6res.tree 6 = [20, 300, 600] ∧
     (reachList c6res.tree 6).length = (reachList c6tree 6).length ∧
     (c6res.tree 40).parent = UNUSED ∧ c6res.matchPos = 40) := by
  constructor
  · intro w tree newNode fuel
    induction fuel with
    | zero => intro testNode ml0 mp0 r h; simp [addStringLoop] at h
    | succ n ih =>
      intro testNode ml0 mp0 r h hml0 hfull
      rw [addStringLoop] at h
      by_cases h1 : (phraseCmp w newNode testNode).2 ≥ ml0
      · rw [if_pos h1] at h
        by_cases h2 : (phraseCmp w newNode testNode).2 ≥ LOOK_AHEAD_SIZE
        · rw [if_pos h2] at h
          obtain rfl : (⟨(phraseCmp w newNode testNode).2, testNode,
              replaceNode tree testNode newNode⟩ : AddResult) = r :=
            Option.some.inj h
          have hle := phraseCmp_snd_le w newNode testNode
          refine ⟨le_antisymm hle h2, ?_, rfl, ?_⟩
          · exact le_antisymm hle h2
          · exact replaceNode_detached tree testNode newNode
        · rw [if_neg h2] at h
          have h2' : (phraseCmp w newNode testNode).2 < LOOK_AHEAD_SIZE := by omega
          split at h
          · split at h
            · obtain rfl := Option.some.inj h
              exact absurd hfull (by simpa using h2')
            · exact ih _ _ _ _ h h2' hfull
          · split at h
            · obtain rfl := Option.some.inj h
              exact absurd hfull (by simpa using h2')
            · exact ih _ _ _ _ h h2' hfull
      · rw [if_neg h1] at h
        split at h
        · split at h
          · obtain rfl := Option.some.inj h
            exact absurd hfull (by simpa using hml0)
          · exact ih _ _ _ _ h hml0 hfull
        · split at h
          · obtain rfl := Option.some.inj h
            exact absurd hfull (by simpa using hml0)
          · exact ih _ _ _ _ h hml0 hfull
  · refine ⟨by decide, by decide, by decide, by decide, by decide⟩

/-- Witness for the universal part of `addString_full_match_replaces` at
the concrete duplicate-eviction input (inserting 300 over the identical
phrase at node 40). -/
theorem addString_full_match_replaces_witness :
    (addStringLoop c6window 300 DESCENT_FUEL c6tree 40 0 0 = some c6res ∧
      0 < LOOK_AHEAD_SIZE ∧ LOOK_AHEAD_SIZE ≤ c6res.matchLen) ∧
    (c6res.matchLen = LOOK_AHEAD_SIZE ∧
      (phraseCmp c6window 300 c6res.matchPos).2 = LOOK_AHEAD_SIZE ∧
      c6res.tree = replaceNode c6tree c6res.matchPos 300 ∧
      (c6res.tree c6res.matchPos).parent = UNUSED) :=
  ⟨⟨rfl, by decide, by decide⟩,
    addString_full_match_replaces.1 c6window c6tree 300 DESCENT_FUEL 40 0 0 c6res
      rfl (by decide) (by decide)⟩

/-- C5 counterexample: the best match is *not* updated only on a strict
improvement.  In the two-node descent below, both tree nodes (30, then its
right child 60) match the inserted phrase at 100 with the same length 5,
yet the returned match position is 60 — the node compared later — while
under an update-only-on-strict-increase rule the position recorded at 30
would have been kept. -/
theorem addString_updates_on_equal_prefix :
    (phraseCmp c5window 100 30).2 = 5 ∧
    (phraseCmp c5window 100 60).2 = 5 ∧
    (addStringLoop c5window 100 10 c5tree 30 0 999).map
        (fun r => (r.matchLen, r.matchPos)) = some (5, 60) ∧
    ((5 : Nat), (60 : Nat)) ≠ ((5 : Nat), (30 : Nat)) := by
  decide

/-- C5 amended: the recorded best match is updated whenever the
common-prefix length `i` is at least (not strictly above) the current
best, so on equal match length the most recently compared node wins: in
any descent that tests a node `a` and then its right child `b`, both
matching the new phrase with the same length `k`, the returned match
position is `b` (with the new node attached below `b`). -/
theorem addString_tie_most_recent_wins
    (w : Window) (tree : Tree) (n a b mp0 k fuel : Nat) (da db : Int)
    (ha : phraseCmp w n a = (da, k)) (hb : phraseCmp w n b = (db, k))
    (hk : k < LOOK_AHEAD_SIZE) (hda : 0 ≤ da) (hdb : 0 ≤ db)
    (hab : (tree a).rightChild = b) (hb0 : b ≠ UNUSED)
    (hbr : (tree b).rightChild = UNUSED) :
    addStringLoop w n (fuel + 2) tree a 0 mp0 =
      some ⟨k, b, attachRight tree b n⟩ := by
  have hstep : fuel + 2 = (fuel + 1) + 1 := rfl
  rw [hstep, addStringLoop, ha]
  simp only
  rw [if_pos (Nat.zero_le k), if_neg (by omega), if_pos hda, if_neg (hab ▸ hb0), hab,
    addStringLoop, hb]
  simp only
  rw [if_pos (le_refl k), if_neg (by omega), if_pos hdb, if_pos hbr]

/-- Witness for `addString_tie_most_recent_wins` at the concrete two-node
tie (prefix length 5 at both nodes). -/
theorem addString_tie_most_recent_wins_witness :
    (phraseCmp c5window 100 30 = (2, 5) ∧ phraseCmp c5window 100 60 = (1, 5) ∧
      5 < LOOK_AHEAD_SIZE ∧ (0 : Int) ≤ 2 ∧ (0 : Int) ≤ 1 ∧
      (c5tree 30).rightChild = 60 ∧ (60 : Nat) ≠ UNUSED ∧
      (c5tree 60).rightChild = UNUSED) ∧
    addStringLoop c5window 100 10 c5tree 30 0 999 =
      some ⟨5, 60, attachRight c5tree 60 100⟩ :=
  ⟨⟨by decide, by decide, by decide, by decide, by decide, by decide, by decide, by decide⟩,
    addString_tie_most_recent_wins c5window c5tree 100 30 60 999 5 8 2 1
      (by decide) (by decide) (by decide) (by decide) (by decide)
      (by decide) (by decide) (by decide)⟩

/-- C8 counterexample: `CreateCompressor` does not zero-fill the window:
the only `memset` in it clears the tree, so the window keeps the work
buffer's previous contents — here the byte 7 at position 5 survives
creation. -/
theorem createCompressor_window_not_zeroed :
    (CreateCompressor fun _ => 7).window 5 = 7 ∧ (7 : Nat) ≠ 0 := by
  constructor
  · rfl
  · decide

/-- C8 amended: `CreateCompressor` initializes the tree to all-`UNUSED`
except that position 1 is placed as the initial root
(`tree[TREE_ROOT].right_child = 1`, node 1's parent `TREE_ROOT`), and sets
`look_ahead = 1` and `current_pos = 1`; the window is left exactly as the
caller-provided (or `malloc`-returned) buffer had it, not zero-filled. -/
theorem createCompressor_init (w0 : Window) :
    (CreateCompressor w0).lookAhead = 1 ∧
    (CreateCompressor w0).currentPos = 1 ∧
    ((CreateCompressor w0).tree TREE_ROOT).rightChild = 1 ∧
    ((CreateCompressor w0).tree 1).parent = TREE_ROOT ∧
    ((CreateCompressor w0).tree 1).leftChild = UNUSED ∧
    ((CreateCompressor w0).tree 1).rightChild = UNUSED ∧
    ((CreateCompressor w0).tree TREE_ROOT).parent = UNUSED ∧
    ((CreateCompressor w0).tree TREE_ROOT).leftChild = UNUSED ∧
    (∀ n, n ≠ TREE_ROOT → n ≠ 1 →
      (CreateCompressor w0).tree n = ⟨UNUSED, UNUSED, UNUSED⟩) ∧
    (∀ p, (CreateCompressor w0).window p = w0 p) ∧
    (CreateCompressor w0).matchLen = 0 ∧
    (CreateCompressor w0).matchPos = 0 ∧
    (CreateCompressor w0).replaceCnt = 0 ∧
    (CreateCompressor w0).secondPass = false ∧
    (CreateCompressor w0).bitsLeft = 32 ∧
    (CreateCompressor w0).bitBuffer = 0 ∧
    (CreateCompressor w0).out = [] := by
  refine ⟨rfl, rfl, rfl, rfl, rfl, rfl, rfl, rfl, ?_, fun _ => rfl,
    rfl, rfl, rfl, rfl, rfl, rfl, rfl⟩
  intro n hroot hone
  simp [CreateCompressor, Tree.setParent, Tree.setRight, Tree.set, hone,
    show n ≠ TREE_ROOT from hroot]

/-- Witness for `createCompressor_init` on a nonzero initial buffer,
sampling the parametric conjuncts at node 5 and window position 0. -/
theorem createCompressor_init_witness :
    ((5 : Nat) ≠ TREE_ROOT ∧ (5 : Nat) ≠ 1) ∧
    (CreateCompressor fun _ => 9).tree 5 = ⟨UNUSED, UNUSED, UNUSED⟩ ∧
    (CreateCompressor fun _ => 9).window 0 = 9 ∧
    (CreateCompressor fun _ => 9).lookAhead = 1 :=
  ⟨⟨by decide, by decide⟩,
    (createCompressor_init fun _ => 9).2.2.2.2.2.2.2.2.1 5 (by decide) (by decide),
    (createCompressor_init fun _ => 9).2.2.2.2.2.2.2.2.2.1 0,
    (createCompressor_init fun _ => 9).1⟩

/-! ### Streaming equivalence (C7)

The encoder consumes its input strictly one byte at a time: between two
byte intakes it performs a fixed amount of work (token emission, tree
delete/insert) that depends only on the state.  The lemmas below make that
explicit — none of the per-byte work reads `ch_SecondPass`, which is
exactly the flag recording where a chunk boundary suspended the machine —
and conclude that feeding any chunking of the input produces the same
final state, hence the same output words. -/

/-- `WriteBits` neither reads nor writes `ch_SecondPass`. -/
theorem writeBits_sp (v sp : Bool) {hb c n : Nat} {w : Window} {t : Tree} {la ml : Int}
    {mp cp rc : Nat} {bl bb : Nat} {out : List Nat} :
    WriteBits ⟨w, t, la, ml, mp, cp, rc, v, bl, bb, out⟩ hb c n =
      { WriteBits ⟨w, t, la, ml, mp, cp, rc, sp, bl, bb, out⟩ hb c n with secondPass := v } := by
  simp only [WriteBits]
  split_ifs <;> rfl

/-- Token emission neither reads nor writes `ch_SecondPass`. -/
theorem emitToken_sp (v sp : Bool) {w : Window} {t : Tree} {la ml : Int}
    {mp cp rc : Nat} {bl bb : Nat} {out : List Nat} :
    emitToken ⟨w, t, la, ml, mp, cp, rc, v, bl, bb, out⟩ =
      { emitToken ⟨w, t, la, ml, mp, cp, rc, sp, bl, bb, out⟩ with secondPass := v } := by
  simp only [emitToken, WriteBits]
  split_ifs <;> rfl

/-- `AddString` neither reads nor writes `ch_SecondPass`. -/
theorem addStringFeed_sp (v sp : Bool) {nn : Nat} {w : Window} {t : Tree} {la ml : Int}
    {mp cp rc : Nat} {bl bb : Nat} {out : List Nat} :
    addStringFeed ⟨w, t, la, ml, mp, cp, rc, v, bl, bb, out⟩ nn =
      { addStringFeed ⟨w, t, la, ml, mp, cp, rc, sp, bl, bb, out⟩ nn with secondPass := v } := by
  simp only [addStringFeed]
  split_ifs with h
  · rfl
  · cases hc : addStringLoop w nn DESCENT_FUEL t ((t TREE_ROOT).rightChild) 0 mp <;> rfl

/-- One byte of encode-phase work neither reads nor writes
`ch_SecondPass`. -/
theorem encConsume_sp (v sp : Bool) {b : Nat} {w : Window} {t : Tree} {la ml : Int}
    {mp cp rc : Nat} {bl bb : Nat} {out : List Nat} :
    encConsume ⟨w, t, la, ml, mp, cp, rc, v, bl, bb, out⟩ b =
      { encConsume ⟨w, t, la, ml, mp, cp, rc, sp, bl, bb, out⟩ b with secondPass := v } := by
  simp only [encConsume]
  rw [addStringFeed_sp v sp]
  generalize addStringFeed ⟨w.set (MOD_WINDOW (cp + LOOK_AHEAD_SIZE)) (b % 256), t, la, ml, mp,
    MOD_WINDOW (cp + 1), rc, sp, bl, bb, out⟩ (MOD_WINDOW (cp + 1)) = A
  obtain ⟨w3, t3, la3, ml3, mp3, cp3, rc3, sp3, bl3, bb3, out3⟩ := A
  dsimp only
  split_ifs
  · rfl
  · rw [emitToken_sp v sp3]
  · rfl
  · rw [emitToken_sp v sp]

/-- `encConsume` after marking suspended equals marking the result
suspended. -/
theorem encConsume_setSP (s : Comp) (b : Nat) :
    encConsume (setSP s) b = setSP (encConsume s b) := by
  obtain ⟨w, t, la, ml, mp, cp, rc, sp, bl, bb, out⟩ := s
  exact encConsume_sp true sp

/-- The parked replacement loop is a left fold of the per-byte step over
the chunk, with the suspension flag set at the end. -/
theorem encDemand_eq_foldl (bytes : List Nat) : ∀ s : Comp,
    encDemand s bytes = setSP (List.foldl encConsume s bytes) := by
  induction bytes with
  | nil => intro s; rfl
  | cons b rest ih => intro s; exact ih (encConsume s b)

/-- Folding from a suspended state gives the same suspended result as
folding from the plain state. -/
theorem foldl_encConsume_setSP (bytes : List Nat) : ∀ s : Comp,
    setSP (List.foldl encConsume (setSP s) bytes) =
      setSP (List.foldl encConsume s bytes) := by
  induction bytes with
  | nil => intro s; rfl
  | cons b rest ih =>
    intro s
    show setSP (List.foldl encConsume (encConsume (setSP s) b) rest) = _
    rw [encConsume_setSP]
    exact ih (encConsume s b)

/-- Feeding a suspended state is the fold of the per-byte step. -/
theorem feed_setSP_eq (T : Comp) (ys : List Nat) :
    FeedCompressor (setSP T) ys = setSP (List.foldl encConsume T ys) := by
  cases ys with
  | nil => rfl
  | cons y ys2 =>
    have h : FeedCompressor (setSP T) (y :: ys2) = encDemand (setSP T) (y :: ys2) := by
      simp [FeedCompressor, setSP]
    rw [h, encDemand_eq_foldl]
    exact foldl_encConsume_setSP (y :: ys2) T

/-- A chunk boundary placed anywhere after the encode phase has been
entered is invisible. -/
theorem encodeEntry_feed (s : Comp) (xs ys : List Nat) :
    FeedCompressor (encodeEntry s xs) ys = encodeEntry s (xs ++ ys) := by
  show FeedCompressor (encDemand _ xs) ys = encDemand _ (xs ++ ys)
  rw [encDemand_eq_foldl, encDemand_eq_foldl, feed_setSP_eq, List.foldl_append]

/-- A chunk boundary placed anywhere during the fill phase is invisible. -/
theorem fillLoop_append (xs : List Nat) : ∀ (s : Comp) (ys : List Nat),
    s.secondPass = false →
    fillLoop s (xs ++ ys) = FeedCompressor (fillLoop s xs) ys := by
  induction xs with
  | nil =>
    intro s ys hsp
    rw [List.nil_append]
    by_cases hla : s.lookAhead ≤ (LOOK_AHEAD_SIZE : Int)
    · have hfe : fillLoop s [] = s := by simp [fillLoop, hla]
      rw [hfe]
      cases ys with
      | nil => simp [fillLoop, hla, FeedCompressor]
      | cons y ys2 => simp [FeedCompressor, hsp]
    · have l1 : ∀ zs, fillLoop s zs =
          encodeEntry { s with lookAhead := s.lookAhead - 1 } zs := by
        intro zs; cases zs <;> simp [fillLoop, hla]
      rw [l1, l1, encodeEntry_feed, List.nil_append]
  | cons x xs2 ih =>
    intro s ys hsp
    by_cases hla : s.lookAhead ≤ (LOOK_AHEAD_SIZE : Int)
    · have hstep : ∀ zs, fillLoop s (x :: zs) =
          fillLoop { s with window := s.window.set s.lookAhead.toNat (x % 256),
                            lookAhead := s.lookAhead + 1 } zs := by
        intro zs; simp [fillLoop, hla]
      rw [show (x :: xs2) ++ ys = x :: (xs2 ++ ys) from rfl, hstep, hstep]
      exact ih _ ys hsp
    · have l1 : ∀ z zs, fillLoop s (z :: zs) =
          encodeEntry { s with lookAhead := s.lookAhead - 1 } (z :: zs) := by
        intro z zs; simp [fillLoop, hla]
      rw [show (x :: xs2) ++ ys = x :: (xs2 ++ ys) from rfl, l1, l1, encodeEntry_feed]
      rfl

/-- `FeedCompressor` is append-homomorphic: feeding `xs` then `ys` leaves
the encoder in the same state as feeding `xs ++ ys` at once. -/
theorem feedCompressor_append (s : Comp) (xs ys : List Nat) :
    FeedCompressor (FeedCompressor s xs) ys = FeedCompressor s (xs ++ ys) := by
  rcases xs with _ | ⟨x, xs2⟩
  · rfl
  · cases hsp : s.secondPass with
    | false =>
      have h1 : FeedCompressor s (x :: xs2) = fillLoop s (x :: xs2) := by
        simp [FeedCompressor, hsp]
      have h2 : FeedCompressor s ((x :: xs2) ++ ys) = fillLoop s ((x :: xs2) ++ ys) := by
        simp [FeedCompressor, hsp]
      rw [h1, h2, fillLoop_append (x :: xs2) s ys hsp]
    | true =>
      have h1 : FeedCompressor s (x :: xs2) = encDemand s (x :: xs2) := by
        simp [FeedCompressor, hsp]
      have h2 : FeedCompressor s ((x :: xs2) ++ ys) = encDemand s ((x :: xs2) ++ ys) := by
        simp [FeedCompressor, hsp]
      rw [h1, h2, encDemand_eq_foldl, encDemand_eq_foldl, feed_setSP_eq,
        List.foldl_append]

/-- Feeding a list of chunks one at a time equals feeding their
concatenation. -/
theorem feed_foldl (chunks : List (List Nat)) : ∀ s : Comp,
    List.foldl FeedCompressor s chunks = FeedCompressor s chunks.flatten := by
  induction chunks with
  | nil => intro s; rfl
  | cons c cs ih =>
    intro s
    show List.foldl FeedCompressor (FeedCompressor s c) cs = _
    rw [ih, feedCompressor_append]
    rfl

/-- The byte stream of concatenated word chunks is the concatenation of
the chunks' byte streams. -/
theorem wordsBytes_flatten (chunks : List (List Nat)) :
    wordsBytes chunks.flatten = (chunks.map wordsBytes).flatten := by
  induction chunks with
  | nil => rfl
  | cons c cs ih =>
    show wordsBytes (c ++ cs.flatten) = _
    simp only [wordsBytes, List.map_append, List.flatten_append] at ih ⊢
    rw [ih]
    rfl

/-- C7: for every initial work-buffer content and every partition of the
input into chunks, feeding the chunks sequentially through
`FeedCompressor` and closing yields exactly the same output words as
feeding the whole input as one chunk and closing (the 1000-word input with
partitions `[1, 999]`, `[500, 500]`, `[333, 333, 334]` is the special case
`chunks.flatten = X`). -/
theorem chunked_feeding_equals_single_feed (w0 : Window) (chunks : List (List Nat)) :
    (DeleteCompressor (List.foldl feedWords (CreateCompressor w0) chunks)).out =
      (DeleteCompressor (feedWords (CreateCompressor w0) chunks.flatten)).out := by
  have h1 : List.foldl feedWords (CreateCompressor w0) chunks =
      List.foldl FeedCompressor (CreateCompressor w0) (chunks.map wordsBytes) := by
    rw [List.foldl_map]
    rfl
  rw [h1, feed_foldl, ← wordsBytes_flatten]
  rfl

end LZSS
